import Mathlib

/-!
Verification development for the ragas metric-evaluation engine as described
by its specification and the Vertex AI customisation notebook
(docs/howtos/customisations/gcp-vertexai.ipynb).

The notebook contributes concrete code: a rebinding loop that mutates the
`llm` and (when present) `embeddings` attributes of each metric object.  The
engine itself (evaluate, BackendBinder, ResultSet, scheduler) is specified in
prose; it is modelled here faithfully from the specification's words.
-/

namespace Ragas

/-! ## Data model -/

/-- One evaluation unit: question / answer / retrieved contexts / optional
reference answer.  Identified by its position in the dataset. -/
structure Record where
  question : String
  answer : String
  contexts : List String
  ground_truth : Option String
deriving Repr, DecidableEq, Inhabited

/-- Failure classification used by the engine's error taxonomy. -/
inductive FailureKind where
  | transient_exhausted
  | permanent
  | cancelled
deriving Repr, DecidableEq

/-- A score outcome: either a successful numeric value or a classified
failure.  Never partially populated. -/
inductive ScoreOutcome where
  | success (value : ℚ)
  | failure (kind : FailureKind) (message : String)
deriving Repr, DecidableEq

/-! ## Python attribute dictionaries (for the notebook's rebinding loop)

A Python object's mutable attributes are modelled as an association list
from attribute name to value; `setAttr` mirrors `object.__setattr__`
(update in place when the key exists, create it otherwise) and `getAttr`
mirrors attribute lookup, with `hasattr` being `(getAttr o k).isSome`. -/

/-- Association-list lookup by string key (first match wins). -/
def lookupStr {α : Type} : List (String × α) → String → Option α
  | [], _ => none
  | (k', v) :: rest, k => if k' = k then some v else lookupStr rest k

/-- Python setattr semantics (`object.__setattr__`): overwrite the first binding of `k` when present,
otherwise append a new binding. -/
def setAttr {α : Type} : List (String × α) → String → α → List (String × α)
  | [], k, v => [(k, v)]
  | (k', v') :: rest, k, v =>
      if k' = k then (k, v) :: rest else (k', v') :: setAttr rest k v

/-- Embedding of the notebook's loop body:
`m.__setattr__("llm", ragas_vertexai_llm)` followed by
`if hasattr(m, "embeddings"): m.__setattr__("embeddings", vertexai_embeddings)`. -/
def rebindOne {α : Type} (llmV embV : α) (o : List (String × α)) :
    List (String × α) :=
  let o1 := setAttr o "llm" llmV
  if (lookupStr o1 "embeddings").isSome then setAttr o1 "embeddings" embV else o1

/-- Embedding of the notebook's `for m in metrics:` rebinding loop. -/
def rebindMetrics {α : Type} (llmV embV : α) (ms : List (List (String × α))) :
    List (List (String × α)) :=
  ms.map (rebindOne llmV embV)

/-! ## Capability providers and bindings

Modelled from the spec: CapabilityProvider is "an opaque handle to a remote
scoring capability"; we model the handle as a natural-number identity.
Bindings are the per-metric resolved judge plus optional embedder. -/

/-- Modelled from the spec: an opaque CapabilityProvider handle. -/
abbrev Provider : Type := Nat

/-- Modelled from the spec: per-metric resolved
`{judge: CapabilityProvider, embedder: CapabilityProvider|absent}`. -/
structure Bindings where
  judge : Provider
  embedder : Option Provider

/-- Modelled from the spec: MetricSpec declares a name, whether its
`requires` set contains `embedder` (`judge` is required always), and a
`score_fn : (Record, Bindings) -> ScoreOutcome` contract.  The second
component of the result is the number of capability-provider calls the
scoring issued (the spec's instrumented-stub call count). -/
structure MetricSpec where
  name : String
  requiresEmbedder : Bool
  score_fn : Record → Bindings → ScoreOutcome × Nat

/-- Modelled from the spec: BackendBinder state — a process-scope default
judge/embedder and per-metric-name overrides. -/
structure BackendBinder where
  defaultJudge : Option Provider
  defaultEmbedder : Option Provider
  overrides : List (String × (Option Provider × Option Provider))

/-- The override entry for a metric name: `(judge?, embedder?)`,
absent components fall through to the defaults. -/
def overrideFor (b : BackendBinder) (name : String) :
    Option Provider × Option Provider :=
  match lookupStr b.overrides name with
  | some e => e
  | none => (none, none)

/-- The judge resolvable for a metric name: override first, then default. -/
def resolvedJudge (b : BackendBinder) (name : String) : Option Provider :=
  match (overrideFor b name).1 with
  | some j => some j
  | none => b.defaultJudge

/-- The embedder resolvable for a metric name: override first, then default. -/
def resolvedEmbedder (b : BackendBinder) (name : String) : Option Provider :=
  match (overrideFor b name).2 with
  | some e => some e
  | none => b.defaultEmbedder

/-- Modelled from the spec: resolve one metric's Bindings at snapshot time.
`judge` is required always; if `requires` includes `embedder`, an embedder
must be resolvable — otherwise resolution fails (UnresolvedCapabilityError). -/
def resolveFor (b : BackendBinder) (m : MetricSpec) : Option Bindings :=
  match resolvedJudge b m.name with
  | none => none
  | some j =>
      match resolvedEmbedder b m.name, m.requiresEmbedder with
      | none, true => none
      | e, _ => some ⟨j, e⟩

/-- Modelled from the spec: `snapshot(metric_specs)` — the per-run immutable
mapping from metric to resolved Bindings, constructed once at run start;
`none` models raising `UnresolvedCapabilityError` before any task starts. -/
def snapshotB (b : BackendBinder) : List MetricSpec → Option (List (MetricSpec × Bindings))
  | [] => some []
  | m :: rest =>
      match resolveFor b m, snapshotB b rest with
      | some bi, some tail => some ((m, bi) :: tail)
      | _, _ => none

/-! ## Task retry discipline (spec 4.3 step 4)

Modelled from the spec: a provider stub is a function from attempt number to
a call result; the engine retries transient failures up to `max_retries`
times, records permanent failures immediately, and counts the calls made. -/

/-- One provider call result, classified per the spec's error taxonomy. -/
inductive CallResult where
  | ok (v : ℚ)
  | transientError
  | permanentError
deriving Repr, DecidableEq

/-- Modelled from the spec: the per-task retry loop.  `attempt` is the
zero-based index of the next provider call; `retriesLeft` is the remaining
retry budget.  Returns the task's ScoreOutcome and the number of calls made. -/
def runTaskLoop (stub : Nat → CallResult) : Nat → Nat → ScoreOutcome × Nat
  | retriesLeft, attempt =>
      match stub attempt, retriesLeft with
      | .ok v, _ => (.success v, attempt + 1)
      | .permanentError, _ => (.failure .permanent "permanent provider error", attempt + 1)
      | .transientError, 0 => (.failure .transient_exhausted "retries exhausted", attempt + 1)
      | .transientError, r + 1 => runTaskLoop stub r (attempt + 1)

/-- Modelled from the spec: run one task against a provider stub with the
given `max_retries` budget. -/
def runTask (maxRetries : Nat) (stub : Nat → CallResult) : ScoreOutcome × Nat :=
  runTaskLoop stub maxRetries 0

/-! ## ResultSet and the evaluation engine

Modelled from the spec: ResultCell is `(row_index, metric_name) ->
ScoreOutcome`; the engine enumerates the full cartesian task set in
row-major order, executes every task, and returns a dense ResultSet plus
per-metric aggregates; the total number of provider calls made is carried
alongside for instrumentation. -/

/-- One (row, metric) outcome. -/
structure ResultCell where
  row : Nat
  metric : String
  outcome : ScoreOutcome
deriving Repr, DecidableEq

/-- The result of a run: the dense cell grid (row-major) and the derived
per-metric aggregates, keyed by metric name in supplied-metric order. -/
structure ResultSet where
  cells : List ResultCell
  aggregates : List (String × Option ℚ)
deriving Repr, DecidableEq

/-- Modelled from the spec: setup errors, fatal to the run, raised before
any task executes. -/
inductive SetupError where
  | duplicateMetric
  | unresolvedCapability
  | emptyDataset
  | emptyMetricSet
deriving Repr, DecidableEq

/-- The metric names of a metric list, in order. -/
def namesOf (ms : List MetricSpec) : List String := ms.map MetricSpec.name

/-- Modelled from the spec: execute the full row-major cartesian task set
against the bindings snapshot; each task yields its ResultCell and its
provider-call count. -/
def runCells (ds : List Record) (snap : List (MetricSpec × Bindings)) :
    List (ResultCell × Nat) :=
  ds.enum.flatMap fun ir =>
    snap.map fun p =>
      let oc := p.1.score_fn ir.2 p.2
      (⟨ir.1, p.1.name, oc.1⟩, oc.2)

/-- The cells of an executed run, in row-major order. -/
def cellsOf (ds : List Record) (snap : List (MetricSpec × Bindings)) :
    List ResultCell :=
  (runCells ds snap).map Prod.fst

/-- Total provider calls made during the run. -/
def callsOf (ds : List Record) (snap : List (MetricSpec × Bindings)) : Nat :=
  ((runCells ds snap).map Prod.snd).sum

/-- One step of the aggregation fold: accumulate the sum and count of
Success values of the named metric, skipping Failure cells. -/
def aggStep (name : String) (acc : ℚ × Nat) (c : ResultCell) : ℚ × Nat :=
  if c.metric = name then
    match c.outcome with
    | .success v => (acc.1 + v, acc.2 + 1)
    | .failure _ _ => acc
  else acc

/-- Modelled from the spec: `aggregate(metric_name)` — the arithmetic mean
of the Success values of that metric; `none` models undefined/NaN when the
metric has zero Success cells. -/
def aggregate (cells : List ResultCell) (name : String) : Option ℚ :=
  let sn := cells.foldl (aggStep name) (0, 0)
  if sn.2 = 0 then none else some (sn.1 / (sn.2 : ℚ))

/-- The per-metric aggregate mapping, one entry per supplied metric, keyed
by metric name, in supplied order. -/
def aggsOf (ms : List MetricSpec) (cells : List ResultCell) :
    List (String × Option ℚ) :=
  ms.map fun m => (m.name, aggregate cells m.name)

/-- Modelled from the spec: `evaluate` — validate setup (empty dataset,
empty metric set, duplicate metric names, unresolved capabilities at
snapshot time), then execute every (row, metric) task and assemble the
dense ResultSet with aggregates.  The second component is the total number
of capability-provider calls made (0 whenever a setup error is raised). -/
def evaluate (b : BackendBinder) (ds : List Record) (ms : List MetricSpec) :
    Except SetupError ResultSet × Nat :=
  if ds.isEmpty then (.error .emptyDataset, 0)
  else if ms.isEmpty then (.error .emptyMetricSet, 0)
  else if (namesOf ms).Nodup then
    match snapshotB b ms with
    | none => (.error .unresolvedCapability, 0)
    | some snap =>
        (.ok ⟨cellsOf ds snap, aggsOf ms (cellsOf ds snap)⟩, callsOf ds snap)
  else (.error .duplicateMetric, 0)

/-! ## Cancellation (spec section 5)

Modelled from the spec: a run-level cancellation signal stops admitting new
tasks; cells of tasks not completed at cancellation time are marked
`Failure(cancelled)`, completed cells retain their outcomes, and the run
still returns a dense ResultSet rather than raising. -/

/-- The outcome recorded for a task not completed at cancellation time. -/
def cancelOutcome : ScoreOutcome := .failure .cancelled "run cancelled"

/-- Replace the outcome of every task (identified by its row-major task
index) not completed at cancellation time with `Failure(cancelled)`. -/
def cancelCells (done : Nat → Bool) (cells : List ResultCell) :
    List ResultCell :=
  cells.enum.map fun p =>
    if done p.1 then p.2 else ⟨p.2.row, p.2.metric, cancelOutcome⟩

/-- Modelled from the spec: a run cancelled mid-execution, where `done t`
tells whether the task with row-major index `t` completed before the
cancellation signal.  Setup validation is unchanged; the execution phase
records `Failure(cancelled)` for every uncompleted task. -/
def evaluateCancelled (b : BackendBinder) (ds : List Record)
    (ms : List MetricSpec) (done : Nat → Bool) : Except SetupError ResultSet :=
  if ds.isEmpty then .error .emptyDataset
  else if ms.isEmpty then .error .emptyMetricSet
  else if (namesOf ms).Nodup then
    match snapshotB b ms with
    | none => .error .unresolvedCapability
    | some snap =>
        .ok ⟨cancelCells done (cellsOf ds snap),
             aggsOf ms (cancelCells done (cellsOf ds snap))⟩
  else .error .duplicateMetric

/-! ## Snapshot isolation (spec 4.2 / section 5 shared-resource policy)

Modelled from the spec: a run in progress holds an immutable Bindings
snapshot; BackendBinder mutations (rebinding) performed after the snapshot
was taken update binder state but are never read by the run's tasks. -/

/-- An event during a run: either a BackendBinder mutation (rebinding) or
the execution of one task, identified by row index and snapshot position. -/
inductive RunEvent where
  | rebind (f : BackendBinder → BackendBinder)
  | execTask (i : Nat) (j : Nat)

/-- Whether an event is a task execution (as opposed to a rebinding). -/
def RunEvent.isExec : RunEvent → Bool
  | .rebind _ => false
  | .execTask _ _ => true

/-- The state of a run in progress: the live binder (mutable), the
immutable Bindings snapshot taken at run start, and the cells written so
far. -/
structure RunState where
  binder : BackendBinder
  snap : List (MetricSpec × Bindings)
  results : List ResultCell

/-- Modelled from the spec: apply one event.  Rebinding mutates only the
binder; executing a task reads the record and the snapshot — never the
live binder — and appends exactly one cell. -/
def applyEvent (ds : List Record) (s : RunState) : RunEvent → RunState
  | .rebind f => { s with binder := f s.binder }
  | .execTask i j =>
      match s.snap.get? j with
      | some p =>
          { s with results :=
              s.results ++ [⟨i, p.1.name, (p.1.score_fn (ds.getD i default) p.2).1⟩] }
      | none => s

/-- Apply a list of events in order. -/
def applyEvents (ds : List Record) (s : RunState) : List RunEvent → RunState
  | [] => s
  | e :: rest => applyEvents ds (applyEvent ds s e) rest

/-- A run's initial state: the snapshot is taken from the binder once, at
run start. -/
def initRun (b : BackendBinder) (ms : List MetricSpec) : RunState :=
  ⟨b, (snapshotB b ms).getD [], []⟩

/-- The cells produced by a run that starts from binder `b` and then
processes the event list `evs`. -/
def runResults (ds : List Record) (b : BackendBinder) (ms : List MetricSpec)
    (evs : List RunEvent) : List ResultCell :=
  (applyEvents ds (initRun b ms) evs).results

/-! ## Bounded worker-pool scheduler (spec 4.3 step 2 / section 5)

Modelled from the spec: tasks are admitted in canonical row-major order up
to `max_concurrency` concurrently-running tasks; a running task holds an
active capability-provider call; when a task completes it frees its slot. -/

/-- Scheduler state: tasks not yet admitted (in canonical order), tasks
currently running (holding an active provider call), and finished tasks. -/
structure SchedState where
  waiting : List Nat
  running : List Nat
  finished : List Nat
deriving Repr, DecidableEq

/-- The scheduler's initial state: every task waiting, in canonical
row-major order. -/
def initSched (tasks : List Nat) : SchedState := ⟨tasks, [], []⟩

/-- Modelled from the spec: one scheduler transition.  `admitTask` moves the
next waiting task (head of the canonical order) into the running set, only
when a concurrency slot is free; `complete` removes a running task and
records it finished, freeing its slot. -/
inductive SchedStep (N : Nat) : SchedState → SchedState → Prop where
  | admitTask (t : Nat) (ts : List Nat) (s : SchedState) :
      s.waiting = t :: ts → s.running.length < N →
      SchedStep N s ⟨ts, s.running ++ [t], s.finished⟩
  | complete (t : Nat) (s : SchedState) :
      t ∈ s.running →
      SchedStep N s ⟨s.waiting, s.running.erase t, t :: s.finished⟩

/-- Reachability of a scheduler state from the initial state. -/
def SchedReachable (N : Nat) (tasks : List Nat) (s : SchedState) : Prop :=
  Relation.ReflTransGen (SchedStep N) (initSched tasks) s

/-! ## Specification-side readings used to state the claims -/

/-- The Success values of the named metric across the cells, in cell order;
Failure cells contribute nothing (they are excluded from numerator and
denominator of the mean). -/
def successValues (cells : List ResultCell) (name : String) : List ℚ :=
  cells.filterMap fun c =>
    if c.metric = name then
      match c.outcome with
      | .success v => some v
      | .failure _ _ => none
    else none

/-! ## Concrete demonstration values (used by the witness theorems) -/

/-- A concrete record. -/
def demoRecord : Record := ⟨"q", "a", [], none⟩

/-- A binder with a default judge and a default embedder. -/
def demoBinder : BackendBinder := ⟨some 0, some 1, []⟩

/-- A binder with a default judge but no embedder resolvable anywhere. -/
def demoBinderNoEmb : BackendBinder := ⟨some 0, none, []⟩

/-- A judge-only metric whose scoring fails permanently after one call. -/
def demoMetric : MetricSpec :=
  ⟨"faithfulness", false, fun _ _ => (.failure .permanent "boom", 1)⟩

/-- A metric that requires an embedder. -/
def demoMetric2 : MetricSpec :=
  ⟨"relevance", true, fun _ _ => (.success 1, 2)⟩

/-- The ResultSet produced by evaluating `demoMetric` over `[demoRecord]`
with `demoBinder`. -/
def demoResult : ResultSet :=
  ⟨[⟨0, "faithfulness", .failure .permanent "boom"⟩], [("faithfulness", none)]⟩

/-! Basic lemmas about `setAttr` / `lookupStr`. -/

theorem lookupStr_setAttr_same {α : Type} (o : List (String × α)) (k : String)
    (v : α) : lookupStr (setAttr o k v) k = some v := by
  induction o with
  | nil => simp [setAttr, lookupStr]
  | cons kv rest ih =>
      obtain ⟨k', v'⟩ := kv
      by_cases h : k' = k
      · simp [setAttr, lookupStr, h]
      · simp [setAttr, lookupStr, h, ih]

theorem lookupStr_setAttr_ne {α : Type} (o : List (String × α)) (k k' : String)
    (v : α) (hne : k' ≠ k) : lookupStr (setAttr o k v) k' = lookupStr o k' := by
  induction o with
  | nil => simp [setAttr, lookupStr, Ne.symm hne]
  | cons kv rest ih =>
      obtain ⟨k0, v0⟩ := kv
      by_cases h : k0 = k
      · subst h
        simp [setAttr, lookupStr, Ne.symm hne]
      · simp [setAttr, lookupStr, h, ih]

/-! ## Theorems about the retry discipline (claims C6, C7) -/

theorem runTaskLoop_transient_then_ok (stub : Nat → CallResult) (v : ℚ) :
    ∀ (k retriesLeft attempt : Nat), k ≤ retriesLeft →
      (∀ i, i < k → stub (attempt + i) = .transientError) →
      stub (attempt + k) = .ok v →
      runTaskLoop stub retriesLeft attempt = (.success v, attempt + k + 1) := by
  intro k
  induction k with
  | zero =>
      intro retriesLeft attempt _ _ hok
      have h0 : stub attempt = .ok v := by simpa using hok
      cases retriesLeft <;> simp [runTaskLoop, h0]
  | succ k ihk =>
      intro retriesLeft attempt hle htr hok
      cases retriesLeft with
      | zero => omega
      | succ r =>
          have h0 : stub attempt = .transientError := by
            have := htr 0 (Nat.succ_pos k)
            simpa using this
          have hrec := ihk r (attempt + 1) (by omega)
            (fun i hi => by
              have h1 := htr (i + 1) (by omega)
              have e : attempt + (i + 1) = attempt + 1 + i := by omega
              rwa [e] at h1)
            (by
              have e : attempt + (k + 1) = attempt + 1 + k := by omega
              rwa [e] at hok)
          calc runTaskLoop stub (r + 1) attempt
              = runTaskLoop stub r (attempt + 1) := by simp [runTaskLoop, h0]
            _ = (.success v, attempt + 1 + k + 1) := hrec
            _ = (.success v, attempt + (k + 1) + 1) := by
                  have e2 : attempt + 1 + k + 1 = attempt + (k + 1) + 1 := by omega
                  rw [e2]

/-- C6: a task whose provider fails with a transient-classified error
exactly `k` times with `k < max_retries` and then succeeds reports Success
and makes exactly `k + 1` provider calls. -/
theorem transient_retry_success_calls (maxRetries k : Nat)
    (stub : Nat → CallResult) (v : ℚ) (hk : k < maxRetries)
    (htr : ∀ i, i < k → stub i = .transientError)
    (hok : stub k = .ok v) :
    runTask maxRetries stub = (.success v, k + 1) := by
  have h := runTaskLoop_transient_then_ok stub v k maxRetries 0
    (Nat.le_of_lt hk)
    (fun i hi => by simpa using htr i hi)
    (by simpa using hok)
  simpa [runTask] using h

theorem transient_retry_success_calls_witness :
    (2 < 3 ∧
      (∀ i, i < 2 →
        (fun n => if n < 2 then CallResult.transientError else CallResult.ok (1)) i =
          CallResult.transientError) ∧
      (fun n => if n < 2 then CallResult.transientError else CallResult.ok (1)) 2 =
        CallResult.ok (1)) ∧
    runTask 3 (fun n => if n < 2 then CallResult.transientError else CallResult.ok (1)) =
      (.success (1), 3) :=
  ⟨⟨by decide, by decide, by decide⟩,
   transient_retry_success_calls 3 2 _ (1) (by decide) (by decide) (by decide)⟩

/-- C7: a task whose provider fails with a permanent-classified error on the
first call reports Failure(permanent) and makes exactly one provider call —
no retry is attempted. -/
theorem permanent_failure_single_call (maxRetries : Nat)
    (stub : Nat → CallResult) (h : stub 0 = .permanentError) :
    runTask maxRetries stub =
      (.failure .permanent "permanent provider error", 1) := by
  cases maxRetries <;> simp [runTask, runTaskLoop, h]

theorem permanent_failure_single_call_witness :
    (fun _ : Nat => CallResult.permanentError) 0 = CallResult.permanentError ∧
    runTask 2 (fun _ : Nat => CallResult.permanentError) =
      (.failure .permanent "permanent provider error", 1) :=
  ⟨rfl, permanent_failure_single_call 2 _ rfl⟩

/-! ## Theorems about the rebinding loop (claim C9) -/

/-- C9: the rebinding loop sets `llm` on every metric in the list, sets
`embeddings` only on metrics that already possess that attribute (never
creating it), and leaves every other attribute unchanged. -/
theorem rebind_loop_effects {α : Type} (llmV embV : α)
    (ms : List (List (String × α))) (o : List (String × α)) (h : o ∈ ms) :
    rebindOne llmV embV o ∈ rebindMetrics llmV embV ms ∧
    lookupStr (rebindOne llmV embV o) "llm" = some llmV ∧
    ((lookupStr o "embeddings").isSome →
      lookupStr (rebindOne llmV embV o) "embeddings" = some embV) ∧
    (lookupStr o "embeddings" = none →
      lookupStr (rebindOne llmV embV o) "embeddings" = none) ∧
    ∀ k, k ≠ "llm" → k ≠ "embeddings" →
      lookupStr (rebindOne llmV embV o) k = lookupStr o k := by
  have hne1 : ("embeddings" : String) ≠ "llm" := by decide
  have hne2 : ("llm" : String) ≠ "embeddings" := by decide
  have hEmb : lookupStr (setAttr o "llm" llmV) "embeddings" = lookupStr o "embeddings" :=
    lookupStr_setAttr_ne o "llm" "embeddings" llmV hne1
  refine ⟨List.mem_map_of_mem _ h, ?_, ?_, ?_, ?_⟩
  · cases hemb : lookupStr o "embeddings" with
    | none =>
        simp only [rebindOne, hEmb, hemb, Option.isSome_none, Bool.false_eq_true,
          if_false]
        exact lookupStr_setAttr_same o "llm" llmV
    | some w =>
        simp only [rebindOne, hEmb, hemb, Option.isSome_some, if_true]
        rw [lookupStr_setAttr_ne _ "embeddings" "llm" embV hne2]
        exact lookupStr_setAttr_same o "llm" llmV
  · intro hs
    cases hemb : lookupStr o "embeddings" with
    | none => rw [hemb] at hs; simp at hs
    | some w =>
        simp only [rebindOne, hEmb, hemb, Option.isSome_some, if_true]
        exact lookupStr_setAttr_same _ "embeddings" embV
  · intro hnone
    simp only [rebindOne, hEmb, hnone, Option.isSome_none, Bool.false_eq_true,
      if_false]
  · intro k hk1 hk2
    cases hemb : lookupStr o "embeddings" with
    | none =>
        simp only [rebindOne, hEmb, hemb, Option.isSome_none, Bool.false_eq_true,
          if_false]
        exact lookupStr_setAttr_ne o "llm" k llmV hk1
    | some w =>
        simp only [rebindOne, hEmb, hemb, Option.isSome_some, if_true]
        rw [lookupStr_setAttr_ne _ "embeddings" k embV hk2]
        exact lookupStr_setAttr_ne o "llm" k llmV hk1

theorem rebind_loop_effects_witness :
    ([("embeddings", 1)] ∈
      [[("llm", 0), ("threshold", 5)], [("embeddings", 1)]]) ∧
    (rebindOne 7 9 [("embeddings", 1)] ∈
      rebindMetrics 7 9 [[("llm", 0), ("threshold", 5)], [("embeddings", 1)]] ∧
    lookupStr (rebindOne 7 9 [("embeddings", 1)]) "llm" = some 7 ∧
    ((lookupStr [("embeddings", 1)] "embeddings").isSome →
      lookupStr (rebindOne 7 9 [("embeddings", 1)]) "embeddings" = some 9) ∧
    (lookupStr [("embeddings", 1)] "embeddings" = none →
      lookupStr (rebindOne 7 9 [("embeddings", 1)]) "embeddings" = none) ∧
    ∀ k, k ≠ "llm" → k ≠ "embeddings" →
      lookupStr (rebindOne 7 9 [("embeddings", 1)]) k =
        lookupStr [("embeddings", 1)] k) :=
  ⟨by simp, rebind_loop_effects 7 9 _ _ (by simp)⟩

/-! ## Theorems about snapshot isolation (claim C2) -/

theorem applyEvent_obs (ds : List Record) (s1 s2 : RunState) (e : RunEvent)
    (hsnap : s1.snap = s2.snap) (hres : s1.results = s2.results) :
    (applyEvent ds s1 e).snap = (applyEvent ds s2 e).snap ∧
    (applyEvent ds s1 e).results = (applyEvent ds s2 e).results := by
  cases e with
  | rebind f => exact ⟨hsnap, hres⟩
  | execTask i j =>
      simp only [applyEvent, hsnap]
      cases h : s2.snap.get? j <;> simp [hsnap, hres]

theorem applyEvents_obs (ds : List Record) (evs : List RunEvent) :
    ∀ s1 s2 : RunState, s1.snap = s2.snap → s1.results = s2.results →
      (applyEvents ds s1 evs).snap = (applyEvents ds s2 evs).snap ∧
      (applyEvents ds s1 evs).results = (applyEvents ds s2 evs).results := by
  induction evs with
  | nil => intro s1 s2 hsnap hres; exact ⟨hsnap, hres⟩
  | cons e rest ih =>
      intro s1 s2 hsnap hres
      have h := applyEvent_obs ds s1 s2 e hsnap hres
      exact ih (applyEvent ds s1 e) (applyEvent ds s2 e) h.1 h.2

theorem applyEvents_filter_exec (ds : List Record) (evs : List RunEvent) :
    ∀ s : RunState,
      (applyEvents ds s evs).results =
        (applyEvents ds s (evs.filter RunEvent.isExec)).results := by
  induction evs with
  | nil => intro s; rfl
  | cons e rest ih =>
      intro s
      cases e with
      | rebind f =>
          have hobs := applyEvents_obs ds rest
            (applyEvent ds s (.rebind f)) s rfl rfl
          calc (applyEvents ds s (.rebind f :: rest)).results
              = (applyEvents ds (applyEvent ds s (.rebind f)) rest).results := rfl
            _ = (applyEvents ds s rest).results := hobs.2
            _ = (applyEvents ds s (rest.filter RunEvent.isExec)).results := ih s
            _ = (applyEvents ds s ((RunEvent.rebind f :: rest).filter RunEvent.isExec)).results := by
                  simp [List.filter, RunEvent.isExec]
      | execTask i j =>
          have hstep : ((RunEvent.execTask i j :: rest).filter RunEvent.isExec) =
              RunEvent.execTask i j :: rest.filter RunEvent.isExec := by
            simp [List.filter, RunEvent.isExec]
          rw [hstep]
          exact ih (applyEvent ds s (.execTask i j))

/-- C2: rebinding providers after the run's Bindings snapshot was taken
does not change any outcome of that run — the cells produced by a run whose
event stream contains post-snapshot rebindings are identical to those of
the same run with the rebindings removed. -/
theorem snapshot_isolation_results (ds : List Record) (b : BackendBinder)
    (ms : List MetricSpec) (evs : List RunEvent) :
    runResults ds b ms evs = runResults ds b ms (evs.filter RunEvent.isExec) := by
  unfold runResults
  exact applyEvents_filter_exec ds evs (initRun b ms)

/-! ## Theorems about the bounded scheduler (claim C5) -/

/-- C5: in every reachable scheduler state, at most `max_concurrency` tasks
hold an active provider call simultaneously, and the waiting queue is
always a drop of the canonical row-major task order — so every admission
takes the next task in canonical order. -/
theorem concurrency_bound_canonical_admission (N : Nat) (tasks : List Nat)
    (s : SchedState) (h : SchedReachable N tasks s) :
    s.running.length ≤ N ∧ ∃ k, s.waiting = tasks.drop k := by
  induction h with
  | refl => exact ⟨by simp [initSched], 0, by simp [initSched]⟩
  | tail hab hbc ih =>
      cases hbc with
      | admitTask t ts s1 hw hlt =>
          refine ⟨by simpa using Nat.succ_le_of_lt hlt, ?_⟩
          obtain ⟨-, k, hk⟩ := ih
          refine ⟨k + 1, ?_⟩
          have hdrop : tasks.drop k = t :: ts := by rw [← hk, hw]
          have : (tasks.drop k).tail = tasks.drop (k + 1) := List.tail_drop tasks k
          rw [hdrop] at this
          simpa using this
      | complete t s1 hmem =>
          obtain ⟨hlen, k, hk⟩ := ih
          refine ⟨?_, k, hk⟩
          have := List.length_erase_of_mem hmem
          simp only [this]
          omega

theorem concurrency_bound_canonical_admission_witness :
    SchedReachable 2 [10, 11, 12] ⟨[11, 12], [10], []⟩ ∧
    ((⟨[11, 12], [10], []⟩ : SchedState).running.length ≤ 2 ∧
      ∃ k, (⟨[11, 12], [10], []⟩ : SchedState).waiting = [10, 11, 12].drop k) := by
  have hreach : SchedReachable 2 [10, 11, 12] ⟨[11, 12], [10], []⟩ :=
    Relation.ReflTransGen.single
      (SchedStep.admitTask 10 [11, 12] (initSched [10, 11, 12]) rfl
        (by simp [initSched]))
  exact ⟨hreach, concurrency_bound_canonical_admission 2 [10, 11, 12] _ hreach⟩

/-! ## Structural lemmas about the evaluation engine -/

theorem snapshotB_map_fst (b : BackendBinder) :
    ∀ (ms : List MetricSpec) (snap : List (MetricSpec × Bindings)),
      snapshotB b ms = some snap → snap.map Prod.fst = ms := by
  intro ms
  induction ms with
  | nil =>
      intro snap h
      simp only [snapshotB, Option.some.injEq] at h
      subst h
      rfl
  | cons m rest ih =>
      intro snap h
      simp only [snapshotB] at h
      cases hr : resolveFor b m with
      | none => rw [hr] at h; simp at h
      | some bi =>
          cases hs : snapshotB b rest with
          | none => rw [hr, hs] at h; simp at h
          | some tail =>
              rw [hr, hs] at h
              simp only [Option.some.injEq] at h
              subst h
              simp [ih tail hs]

theorem length_flatMap_const {α β : Type} (f : α → List β) (k : Nat)
    (l : List α) (h : ∀ a ∈ l, (f a).length = k) :
    (l.flatMap f).length = l.length * k := by
  induction l with
  | nil => simp
  | cons a t ih =>
      have ha : (f a).length = k := h a (by simp)
      have ht := ih fun x hx => h x (by simp [hx])
      simp only [List.flatMap_cons, List.length_append, ha, ht, List.length_cons]
      ring

theorem cellsOf_eq (ds : List Record) (snap : List (MetricSpec × Bindings)) :
    cellsOf ds snap =
      ds.enum.flatMap fun ir => snap.map fun p =>
        (⟨ir.1, p.1.name, (p.1.score_fn ir.2 p.2).1⟩ : ResultCell) := by
  unfold cellsOf runCells
  rw [List.map_flatMap]
  simp only [List.map_map]
  rfl

theorem length_cellsOf (ds : List Record) (snap : List (MetricSpec × Bindings)) :
    (cellsOf ds snap).length = ds.length * snap.length := by
  rw [cellsOf_eq]
  rw [length_flatMap_const _ snap.length _ (fun a _ => by simp)]
  simp [List.enum_length]

theorem sum_range_indicator (n i : Nat) (h : i < n) :
    ((List.range n).map fun r => if r = i then 1 else 0).sum = 1 := by
  induction n with
  | zero => omega
  | succ n ih =>
      rw [List.range_succ, List.map_append, List.sum_append]
      by_cases hc : i = n
      · subst hc
        have hz : ((List.range i).map fun r => if r = i then 1 else 0).sum = 0 := by
          apply List.sum_eq_zero
          intro x hx
          obtain ⟨r, hr, hrx⟩ := List.mem_map.mp hx
          have : r < i := List.mem_range.mp hr
          simp only [← hrx]
          simp [Nat.ne_of_lt this]
        simp [hz]
      · have hin : i < n := by omega
        have hne : ¬n = i := fun hx => hc hx.symm
        simp [ih hin, hne]

theorem countP_cellsOf (ds : List Record) (snap : List (MetricSpec × Bindings))
    (i : Nat) (nm : String) (hi : i < ds.length)
    (hnodup : ((snap.map Prod.fst).map MetricSpec.name).Nodup)
    (hnm : nm ∈ (snap.map Prod.fst).map MetricSpec.name) :
    (cellsOf ds snap).countP (fun c => c.row == i && c.metric == nm) = 1 := by
  rw [cellsOf_eq, List.countP_flatMap]
  have hone : (snap.countP fun p => p.1.name == nm) = 1 := by
    have e1 : (snap.countP fun p => p.1.name == nm) =
        List.count nm ((snap.map Prod.fst).map MetricSpec.name) := by
      rw [List.map_map, List.count, List.countP_map]
      rfl
    rw [e1]
    exact List.count_eq_one_of_mem hnodup hnm
  have hcell : ∀ ir : Nat × Record,
      ((List.countP fun c : ResultCell => c.row == i && c.metric == nm) ∘
        fun ir => snap.map fun p =>
          (⟨ir.1, p.1.name, (p.1.score_fn ir.2 p.2).1⟩ : ResultCell)) ir =
        if ir.1 = i then 1 else 0 := by
    intro ir
    simp only [Function.comp_apply, List.countP_map]
    by_cases hr : ir.1 = i
    · simp only [hr, if_pos rfl]
      calc (List.countP
              ((fun c : ResultCell => c.row == i && c.metric == nm) ∘ fun p =>
                (⟨i, p.1.name, (p.1.score_fn ir.2 p.2).1⟩ : ResultCell)) snap)
          = snap.countP fun p => p.1.name == nm := by
            apply List.countP_congr
            intro p _
            simp [Function.comp]
        _ = 1 := hone
    · rw [if_neg hr]
      apply List.countP_eq_zero.mpr
      intro p _
      simp [Function.comp, hr]
  calc (ds.enum.map ((List.countP fun c : ResultCell => c.row == i && c.metric == nm) ∘
          fun ir => snap.map fun p =>
            (⟨ir.1, p.1.name, (p.1.score_fn ir.2 p.2).1⟩ : ResultCell))).sum
      = (ds.enum.map fun ir => if ir.1 = i then 1 else 0).sum := by
        rw [List.map_congr_left fun a _ => hcell a]
    _ = ((ds.enum.map Prod.fst).map fun r => if r = i then 1 else 0).sum := by
        rw [List.map_map]
        rfl
    _ = ((List.range ds.length).map fun r => if r = i then 1 else 0).sum := by
        rw [List.enum_map_fst]
    _ = 1 := sum_range_indicator ds.length i hi

theorem evaluate_ok_inv (b : BackendBinder) (ds : List Record)
    (ms : List MetricSpec) (rs : ResultSet) (calls : Nat)
    (h : evaluate b ds ms = (.ok rs, calls)) :
    ∃ snap, snapshotB b ms = some snap ∧ (namesOf ms).Nodup ∧
      ds.isEmpty = false ∧ ms.isEmpty = false ∧
      rs = ⟨cellsOf ds snap, aggsOf ms (cellsOf ds snap)⟩ ∧
      calls = callsOf ds snap := by
  unfold evaluate at h
  by_cases h1 : ds.isEmpty
  · rw [if_pos h1] at h; exact absurd h (by simp)
  rw [if_neg h1] at h
  by_cases h2 : ms.isEmpty
  · rw [if_pos h2] at h; exact absurd h (by simp)
  rw [if_neg h2] at h
  by_cases h3 : (namesOf ms).Nodup
  · rw [if_pos h3] at h
    cases hsnap : snapshotB b ms with
    | none => rw [hsnap] at h; exact absurd h (by simp)
    | some snap =>
        rw [hsnap] at h
        simp only [Prod.mk.injEq, Except.ok.injEq] at h
        exact ⟨snap, rfl, h3, by simpa using h1, by simpa using h2,
          h.1.symm, h.2.symm⟩
  · rw [if_neg h3] at h; exact absurd h (by simp)

/-! ## Aggregation lemmas -/

theorem foldl_aggStep (name : String) (cells : List ResultCell) :
    ∀ (s : ℚ) (n : Nat),
      cells.foldl (aggStep name) (s, n) =
        (s + (successValues cells name).sum,
         n + (successValues cells name).length) := by
  induction cells with
  | nil => intro s n; simp [successValues]
  | cons c rest ih =>
      intro s n
      by_cases hm : c.metric = name
      · cases ho : c.outcome with
        | success v =>
            have hsv : successValues (c :: rest) name = v :: successValues rest name := by
              simp [successValues, List.filterMap_cons, hm, ho]
            rw [List.foldl_cons, hsv]
            have hstep : aggStep name (s, n) c = (s + v, n + 1) := by
              simp [aggStep, hm, ho]
            rw [hstep, ih]
            simp only [Prod.mk.injEq, List.sum_cons, List.length_cons]
            constructor
            · ring
            · omega
        | failure k msg =>
            have hsv : successValues (c :: rest) name = successValues rest name := by
              simp [successValues, List.filterMap_cons, hm, ho]
            rw [List.foldl_cons, hsv]
            have hstep : aggStep name (s, n) c = (s, n) := by
              simp [aggStep, hm, ho]
            rw [hstep, ih]
      · have hsv : successValues (c :: rest) name = successValues rest name := by
          simp [successValues, List.filterMap_cons, hm]
        rw [List.foldl_cons, hsv]
        have hstep : aggStep name (s, n) c = (s, n) := by
          simp [aggStep, hm]
        rw [hstep, ih]

theorem aggregate_eq_mean (cells : List ResultCell) (name : String) :
    aggregate cells name =
      if successValues cells name = [] then none
      else some ((successValues cells name).sum /
        ((successValues cells name).length : ℚ)) := by
  unfold aggregate
  rw [foldl_aggStep]
  by_cases h : successValues cells name = []
  · simp [h]
  · have hlen : (successValues cells name).length ≠ 0 := by
      simpa [List.length_eq_zero] using h
    simp [h, hlen]

/-! ## Cancellation lemmas -/

theorem length_cancelCells (done : Nat → Bool) (cells : List ResultCell) :
    (cancelCells done cells).length = cells.length := by
  simp [cancelCells, List.enum_length]

theorem get?_cancelCells (done : Nat → Bool) (cells : List ResultCell)
    (t : Nat) :
    (cancelCells done cells).get? t =
      (cells.get? t).map fun c =>
        if done t then c else ⟨c.row, c.metric, cancelOutcome⟩ := by
  unfold cancelCells
  rw [List.get?_map, List.enum_get?]
  cases cells.get? t <;> simp

/-! ## Setup-error lemmas -/

theorem resolveFor_none_of_embedder (b : BackendBinder) (m : MetricSpec)
    (hreq : m.requiresEmbedder = true)
    (hemb : resolvedEmbedder b m.name = none) :
    resolveFor b m = none := by
  unfold resolveFor
  cases resolvedJudge b m.name <;> simp [hemb, hreq]

theorem snapshotB_none_of_unresolved (b : BackendBinder) :
    ∀ (ms : List MetricSpec) (m : MetricSpec), m ∈ ms →
      resolveFor b m = none → snapshotB b ms = none := by
  intro ms
  induction ms with
  | nil => intro m h; simp at h
  | cons m0 rest ih =>
      intro m hmem hres
      rcases List.mem_cons.mp hmem with h | h
      · subst h
        simp [snapshotB, hres]
      · have htail := ih m h hres
        cases hr : resolveFor b m0 <;> simp [snapshotB, hr, htail]

/-! ## Claim theorems about `evaluate` -/

/-- C1: every run of `evaluate` that completes (returns a ResultSet) has
exactly `len(dataset) * len(metrics)` cells, and for every pair
`(row_index, metric_name)` exactly one cell carries that identity — no
cell missing, no cell written more than once. -/
theorem evaluate_dense_exactly_once (b : BackendBinder) (ds : List Record)
    (ms : List MetricSpec) (rs : ResultSet) (calls : Nat)
    (h : evaluate b ds ms = (.ok rs, calls)) :
    rs.cells.length = ds.length * ms.length ∧
    ∀ i nm, i < ds.length → nm ∈ namesOf ms →
      rs.cells.countP (fun c => c.row == i && c.metric == nm) = 1 := by
  obtain ⟨snap, hsnap, hnodup, -, -, hrs, -⟩ := evaluate_ok_inv b ds ms rs calls h
  have hfst : snap.map Prod.fst = ms := snapshotB_map_fst b ms snap hsnap
  have hlen : snap.length = ms.length := by
    rw [← hfst, List.length_map]
  subst hrs
  constructor
  · simp [length_cellsOf, hlen]
  · intro i nm hi hnm
    have hnodup' : ((snap.map Prod.fst).map MetricSpec.name).Nodup := by
      rw [hfst]; exact hnodup
    have hnm' : nm ∈ (snap.map Prod.fst).map MetricSpec.name := by
      rw [hfst]; exact hnm
    exact countP_cellsOf ds snap i nm hi hnodup' hnm'

theorem evaluate_dense_exactly_once_witness :
    evaluate demoBinder [demoRecord] [demoMetric] = (.ok demoResult, 1) ∧
    (demoResult.cells.length = [demoRecord].length * [demoMetric].length ∧
      ∀ i nm, i < [demoRecord].length → nm ∈ namesOf [demoMetric] →
        demoResult.cells.countP (fun c => c.row == i && c.metric == nm) = 1) :=
  ⟨rfl, evaluate_dense_exactly_once demoBinder [demoRecord] [demoMetric]
    demoResult 1 rfl⟩

/-- C3: for every completed run, each per-metric aggregate entry equals
`aggregate` over the run's cells, and `aggregate` is the arithmetic mean of
the Success values only (Failure cells excluded from numerator and
denominator); a metric with zero Success cells aggregates to `none`
(undefined), not zero and not an error. -/
theorem aggregate_mean_of_successes (b : BackendBinder) (ds : List Record)
    (ms : List MetricSpec) (rs : ResultSet) (calls : Nat)
    (h : evaluate b ds ms = (.ok rs, calls)) :
    (∀ e ∈ rs.aggregates, e.2 = aggregate rs.cells e.1) ∧
    ∀ nm,
      (successValues rs.cells nm ≠ [] →
        aggregate rs.cells nm =
          some ((successValues rs.cells nm).sum /
            ((successValues rs.cells nm).length : ℚ))) ∧
      (successValues rs.cells nm = [] → aggregate rs.cells nm = none) := by
  obtain ⟨snap, -, -, -, -, hrs, -⟩ := evaluate_ok_inv b ds ms rs calls h
  subst hrs
  constructor
  · intro e he
    simp only [aggsOf, List.mem_map] at he
    obtain ⟨m, -, hme⟩ := he
    rw [← hme]
  · intro nm
    constructor
    · intro hne
      rw [aggregate_eq_mean, if_neg hne]
    · intro heq
      rw [aggregate_eq_mean, if_pos heq]

theorem aggregate_mean_of_successes_witness :
    evaluate demoBinder [demoRecord] [demoMetric] = (.ok demoResult, 1) ∧
    ((∀ e ∈ demoResult.aggregates, e.2 = aggregate demoResult.cells e.1) ∧
    ∀ nm,
      (successValues demoResult.cells nm ≠ [] →
        aggregate demoResult.cells nm =
          some ((successValues demoResult.cells nm).sum /
            ((successValues demoResult.cells nm).length : ℚ))) ∧
      (successValues demoResult.cells nm = [] →
        aggregate demoResult.cells nm = none)) :=
  ⟨rfl, aggregate_mean_of_successes demoBinder [demoRecord] [demoMetric]
    demoResult 1 rfl⟩

/-- C4: a run containing a metric whose `requires` includes `embedder`
while no embedder is resolvable (neither override nor default) raises
`UnresolvedCapabilityError` at run start, before any task executes, with
zero capability-provider calls made. -/
theorem unresolved_embedder_errors_at_start (b : BackendBinder)
    (ds : List Record) (ms : List MetricSpec) (m : MetricSpec)
    (hds : ds.isEmpty = false) (hms : ms.isEmpty = false)
    (hnodup : (namesOf ms).Nodup) (hmem : m ∈ ms)
    (hreq : m.requiresEmbedder = true)
    (hemb : resolvedEmbedder b m.name = none) :
    evaluate b ds ms = (.error .unresolvedCapability, 0) := by
  have hsnap : snapshotB b ms = none :=
    snapshotB_none_of_unresolved b ms m hmem
      (resolveFor_none_of_embedder b m hreq hemb)
  unfold evaluate
  rw [hds, hms]
  simp [hnodup, hsnap]

theorem unresolved_embedder_errors_at_start_witness :
    (([demoRecord] : List Record).isEmpty = false ∧
      ([demoMetric2] : List MetricSpec).isEmpty = false ∧
      (namesOf [demoMetric2]).Nodup ∧ demoMetric2 ∈ [demoMetric2] ∧
      demoMetric2.requiresEmbedder = true ∧
      resolvedEmbedder demoBinderNoEmb demoMetric2.name = none) ∧
    evaluate demoBinderNoEmb [demoRecord] [demoMetric2] =
      (.error .unresolvedCapability, 0) :=
  ⟨⟨rfl, rfl, by simp [namesOf], by simp, rfl, rfl⟩,
   unresolved_embedder_errors_at_start demoBinderNoEmb [demoRecord]
     [demoMetric2] demoMetric2 rfl rfl (by simp [namesOf]) (by simp) rfl rfl⟩

/-- C8: a run cancelled mid-execution still returns a dense ResultSet
(never raises): it has all `len(dataset) * len(metrics)` cells, every task
completed before cancellation retains its outcome, and every uncompleted
task's cell carries the same `(row, metric)` identity with outcome
`Failure(cancelled)`. -/
theorem cancelled_run_dense (b : BackendBinder) (ds : List Record)
    (ms : List MetricSpec) (rs : ResultSet) (calls : Nat) (done : Nat → Bool)
    (h : evaluate b ds ms = (.ok rs, calls)) :
    ∃ rs' : ResultSet, evaluateCancelled b ds ms done = .ok rs' ∧
      rs'.cells.length = ds.length * ms.length ∧
      (∀ t, done t = true → rs'.cells.get? t = rs.cells.get? t) ∧
      (∀ t, done t = false →
        rs'.cells.get? t = (rs.cells.get? t).map fun c =>
          ⟨c.row, c.metric, cancelOutcome⟩) := by
  obtain ⟨snap, hsnap, hnodup, hds, hms, hrs, -⟩ := evaluate_ok_inv b ds ms rs calls h
  have hfst : snap.map Prod.fst = ms := snapshotB_map_fst b ms snap hsnap
  have hlen : snap.length = ms.length := by rw [← hfst, List.length_map]
  refine ⟨⟨cancelCells done (cellsOf ds snap),
    aggsOf ms (cancelCells done (cellsOf ds snap))⟩, ?_, ?_, ?_, ?_⟩
  · unfold evaluateCancelled
    rw [hds, hms]
    simp [hnodup, hsnap]
  · simp [length_cancelCells, length_cellsOf, hlen]
  · intro t ht
    rw [hrs]
    simp only [get?_cancelCells, ht, if_true]
    cases (cellsOf ds snap).get? t <;> rfl
  · intro t ht
    rw [hrs]
    simp only [get?_cancelCells, ht]
    cases (cellsOf ds snap).get? t <;> simp

theorem cancelled_run_dense_witness :
    evaluate demoBinder [demoRecord] [demoMetric] = (.ok demoResult, 1) ∧
    (∃ rs' : ResultSet,
      evaluateCancelled demoBinder [demoRecord] [demoMetric]
        (fun _ => false) = .ok rs' ∧
      rs'.cells.length = [demoRecord].length * [demoMetric].length ∧
      (∀ t, (fun _ : Nat => false) t = true →
        rs'.cells.get? t = demoResult.cells.get? t) ∧
      (∀ t, (fun _ : Nat => false) t = false →
        rs'.cells.get? t = (demoResult.cells.get? t).map fun c =>
          ⟨c.row, c.metric, cancelOutcome⟩)) :=
  ⟨rfl, cancelled_run_dense demoBinder [demoRecord] [demoMetric]
    demoResult 1 (fun _ => false) rfl⟩

/-- C10: for every completed run, the per-metric aggregate mapping has
exactly one entry per supplied metric, keyed by that metric's name, in the
order the metrics were supplied — no extra and no missing names. -/
theorem aggregates_keys_match_metrics (b : BackendBinder) (ds : List Record)
    (ms : List MetricSpec) (rs : ResultSet) (calls : Nat)
    (h : evaluate b ds ms = (.ok rs, calls)) :
    rs.aggregates.map Prod.fst = namesOf ms ∧ (namesOf ms).Nodup := by
  obtain ⟨snap, -, hnodup, -, -, hrs, -⟩ := evaluate_ok_inv b ds ms rs calls h
  subst hrs
  refine ⟨?_, hnodup⟩
  simp [aggsOf, namesOf, List.map_map, Function.comp]

theorem aggregates_keys_match_metrics_witness :
    evaluate demoBinder [demoRecord] [demoMetric] = (.ok demoResult, 1) ∧
    (demoResult.aggregates.map Prod.fst = namesOf [demoMetric] ∧
      (namesOf [demoMetric]).Nodup) :=
  ⟨rfl, aggregates_keys_match_metrics demoBinder [demoRecord] [demoMetric]
    demoResult 1 rfl⟩

end Ragas
